import Mathlib

/-!
Verification of the core data operations of the Streamlit contact-manager
application (`app.py`): tag extraction from display names, tag-based
filtering, saved-list (dictionary) editing, contact appending, channel-matrix
partitioning, and the saved-lists load/save round trip.

The Python code is shallowly embedded: strings are Lean `String`s, the
contact table is a list of records, the saved-lists JSON dictionary is an
insertion-ordered association list (matching Python 3 `dict` semantics), and
the regular expressions of `app.py` are modelled by explicit character-level
scanners.
-/

namespace ContactApp

/-! ## Character classes and regex models

`app.py` uses two regexes on display names:
* `re.findall(r'\+\w+', s)` — all non-overlapping, maximal tokens consisting
  of a `+` followed by one or more word characters;
* `re.match(r'\+\d+', t)` — a *prefix* match: succeeds iff `t` starts with
  `+` followed by at least one digit.
We model `\w` over its ASCII fragment: letters, digits and underscore.
-/

/-- ASCII model of Python's `\w` character class: `[A-Za-z0-9_]`. -/
def isWordChar (c : Char) : Bool := c.isAlphanum || c == '_'

/-- One step of the `\+\w+` scanner.  The state `cur` is `none` when the
scanner is not inside a candidate token, and `some acc` when a `+` has been
seen and `acc` holds the word characters read so far (in reverse).  A token
is emitted exactly when a non-empty run of word characters after a `+` ends,
which reproduces the greedy maximal-munch, non-overlapping matches of
`re.findall(r'\+\w+', s)`. -/
def scanTagsAux : Option (List Char) → List Char → List String
  | none, [] => []
  | some acc, [] => if acc.isEmpty then [] else [String.mk ('+' :: acc.reverse)]
  | none, c :: rest =>
      if c == '+' then scanTagsAux (some []) rest else scanTagsAux none rest
  | some acc, c :: rest =>
      if isWordChar c then scanTagsAux (some (c :: acc)) rest
      else
        let tail := if c == '+' then scanTagsAux (some []) rest
                    else scanTagsAux none rest
        if acc.isEmpty then tail else String.mk ('+' :: acc.reverse) :: tail

/-- Model of `re.findall(r'\+\w+', s)`: the list of `+word` tokens of `s`,
left to right. -/
def findPlusTokens (s : String) : List String := scanTagsAux none s.data

/-- Model of `bool(re.match(r'\+\d+', t))` for a token `t`: `re.match`
anchors at the start only, so this holds iff `t` begins with `'+'` followed
by a digit (the greedy `\d+` then consumes at least that digit). -/
def matchPlusDigits (t : String) : Bool :=
  match t.data with
  | '+' :: c :: _ => c.isDigit
  | _ => false

/-! ## Sorting strings

Python's `sorted` on strings compares lexicographically by code point, a
proper prefix ordering before any extension.  We use an insertion sort over
that boolean order. -/

/-- Model of Python `str.lower()` (ASCII fragment): lowercase every
character. -/
def strLower (s : String) : String := String.mk (s.data.map Char.toLower)

/-- Lexicographic (code-point) `≤` on character lists, as Python compares
strings. -/
def charListLe : List Char → List Char → Bool
  | [], _ => true
  | _ :: _, [] => false
  | a :: as, b :: bs =>
      if a < b then true
      else if b < a then false
      else charListLe as bs

/-- Python's string `≤`. -/
def strLe (a b : String) : Bool := charListLe a.data b.data

/-- Insert a string into a (sorted) list, keeping it sorted. -/
def insertStr (s : String) : List String → List String
  | [] => [s]
  | x :: xs => if strLe s x then s :: x :: xs else x :: insertStr s xs

/-- Insertion sort by `strLe`; models Python's `sorted` on a set of strings. -/
def sortStrs : List String → List String
  | [] => []
  | x :: xs => insertStr x (sortStrs xs)

/-! ## The contact table -/

/-- A row of the contact table: the `display_name` column, the `checkbox`
column (synthesized as `False` when absent), and the values of the other
columns of the CSV, in schema order. -/
structure Contact where
  display_name : String
  checkbox : Bool
  attrs : List String
deriving DecidableEq, Repr

/-- The contact `DataFrame`: the names of the extra columns beyond
`display_name` and `checkbox`, and the rows (each row's `attrs` parallels
`cols`). -/
structure Table where
  cols : List String
  rows : List Contact
deriving DecidableEq, Repr

/-! ## Tag extraction (`extract_tags`, app.py lines 24–30) -/

/-- The per-name token list of `extract_tags`'s loop body:
`[t.lower() for t in re.findall(r'\+\w+', str(name)) if not re.match(r'\+\d+', t)]`. -/
def tokensOfName (name : String) : List String :=
  ((findPlusTokens name).filter (fun t => !matchPlusDigits t)).map strLower

/-- `extract_tags(df)` (app.py lines 24–30): union the per-name tokens into a
set and return them sorted ascending.  The set is modelled as deduplication
of the concatenated per-name token lists. -/
def extract_tags (df : List Contact) : List String :=
  sortStrs (((df.map Contact.display_name).flatMap tokensOfName).dedup)

/-! ## Tag filtering (`tag_filter_ui` / `match_tags`, app.py lines 45–65) -/

/-- The token list `found` computed inside `match_tags` (app.py line 58):
`[t.lower() for t in re.findall(r'\+\w+', str(name)) if not re.match(r'\+\d+', t)]`.
The code duplicates the expression of `extract_tags`'s loop body verbatim. -/
def matchFoundTokens (name : String) : List String :=
  ((findPlusTokens name).filter (fun t => !matchPlusDigits t)).map strLower

/-- `match_tags(name)` (app.py lines 57–62), closed over the UI state
`filter_mode` (the radio value, `"AND"` or `"OR"`) and `selected_tags`. -/
def match_tags (filter_mode : String) (selected_tags : List String)
    (name : String) : Bool :=
  let found := matchFoundTokens name
  if filter_mode == "AND" then
    selected_tags.all (fun tag => found.contains tag)
  else
    selected_tags.any (fun tag => found.contains tag)

/-- The filtering step of `tag_filter_ui` (app.py lines 56–65): when
`selected_tags` is non-empty, keep the rows whose `display_name` satisfies
`match_tags`; otherwise the frame is returned unchanged. -/
def tag_filter (df : List Contact) (selected_tags : List String)
    (filter_mode : String) : List Contact :=
  if selected_tags.isEmpty then df
  else df.filter (fun c => match_tags filter_mode selected_tags c.display_name)

/-! ## Saved lists (`load_saved_lists` / `save_lists` / `select_and_save_ui`)

The saved-lists file is a JSON object mapping list names to arrays of
display names.  Python 3 dictionaries preserve insertion order, so the
mapping is an association list with distinct keys: assignment to an existing
key replaces its value in place, assignment to a fresh key appends, and
`del` removes the key's entry. -/

/-- The in-memory saved-lists dictionary. -/
def SavedLists : Type := List (String × List String)

instance : DecidableEq SavedLists := by unfold SavedLists; infer_instance

/-- Python `d[k]` lookup (first matching key; keys are unique in a dict). -/
def dictLookup (m : SavedLists) (k : String) : Option (List String) :=
  match m with
  | [] => none
  | (k', v) :: rest => if k' = k then some v else dictLookup rest k

/-- Python `d[k] = v`: replace the value of an existing key in place,
otherwise append the new binding at the end. -/
def dictInsert (m : SavedLists) (k : String) (v : List String) : SavedLists :=
  match m with
  | [] => [(k, v)]
  | (k', v') :: rest =>
      if k' = k then (k, v) :: rest else (k', v') :: dictInsert rest k v

/-- Python `del d[k]`: remove the (unique) entry of key `k`. -/
def dictRemove (m : SavedLists) (k : String) : SavedLists :=
  match m with
  | [] => []
  | (k', v') :: rest =>
      if k' = k then rest else (k', v') :: dictRemove rest k

/-- The keys of the dictionary are pairwise distinct (invariant of every
Python dict). -/
@[reducible]
def keysNodup (m : SavedLists) : Prop := (m.map Prod.fst).Nodup

/-- The "Save Selected Contacts" action (app.py lines 76–81):
`if list_name and selected: saved_lists[list_name] = selected; save_lists(...)`.
Returns the new mapping and whether `save_lists` was called. -/
def create_or_overwrite (m : SavedLists) (name : String)
    (members : List String) : SavedLists × Bool :=
  if name ≠ "" ∧ members ≠ [] then (dictInsert m name members, true)
  else (m, false)

/-- The "Update List" action (app.py lines 90–93):
`saved_lists[selected_list] = selected; save_lists(saved_lists)`. -/
def update_list (m : SavedLists) (name : String)
    (members : List String) : SavedLists × Bool :=
  (dictInsert m name members, true)

/-- The "Delete List" action (app.py lines 95–98):
`del saved_lists[selected_list]; save_lists(saved_lists)`.  `del` on an
absent key raises `KeyError` before any mutation, so `save_lists` is never
reached and the mapping is unchanged.  Result: (mapping after the action,
whether `save_lists` ran, the raised exception if any). -/
def delete_list (m : SavedLists) (name : String) :
    SavedLists × Bool × Option String :=
  if (dictLookup m name).isSome then (dictRemove m name, true, none)
  else (m, false, some "KeyError")

/-! ## Adding a contact (`add_contact_ui`, app.py lines 110–122) -/

/-- Model of Python `str.strip()`: drop whitespace from both ends. -/
def strStrip (s : String) : String :=
  String.mk (((s.data.dropWhile Char.isWhitespace).reverse.dropWhile
    Char.isWhitespace).reverse)

/-- `add_contact_ui` (app.py lines 110–122): if `new_contact.strip()` is
non-empty, build a one-row frame with `display_name = new_contact` and every
other column of `df` defaulted (`False` for `checkbox`, `""` otherwise),
concatenate it after `df`, and write the CSV.  Returns the resulting frame
and whether the CSV was written. -/
def add_contact (tbl : Table) (new_contact : String) : Table × Bool :=
  if strStrip new_contact ≠ "" then
    ({ cols := tbl.cols,
       rows := tbl.rows ++
         [{ display_name := new_contact, checkbox := false,
            attrs := tbl.cols.map (fun _ => "") }] }, true)
  else (tbl, false)

/-! ## Channel matrix (`channel_matrix_ui`, app.py lines 125–134) -/

/-- A row of the channel matrix after the `rename` of app.py line 129: the
first column is the operator identifier (`none` models a missing / NaN
cell), and `cells` maps each charterer column to its cell value coerced to a
string (`astype(str)` renders a missing cell as `"nan"`). -/
structure MatrixRow where
  operator : Option String
  cells : List (String × String)
deriving DecidableEq, Repr

/-- The string-coerced cell of `row` in the charterer column `ch`
(`matrix_df[ch].astype(str)`); an absent column entry renders as `"nan"`,
as `astype(str)` does for NaN. -/
def cellFor (row : MatrixRow) (ch : String) : String :=
  match row.cells.find? (fun p => p.1 == ch) with
  | some p => p.2
  | none => "nan"

/-- Model of Python `str.upper()` (ASCII fragment). -/
def strUpper (s : String) : String := String.mk (s.data.map Char.toUpper)

/-- The partition of app.py lines 133–134: filter the rows whose cell in the
selected column, uppercased, equals `"YES"` (resp. `"NO"`), project the
`Operator` column, and `dropna` the missing operators. -/
def partitionOperators (rows : List MatrixRow) (selected : String) :
    List String × List String :=
  ( ((rows.filter (fun r => strUpper (cellFor r selected) == "YES")).filterMap
      MatrixRow.operator),
    ((rows.filter (fun r => strUpper (cellFor r selected) == "NO")).filterMap
      MatrixRow.operator) )

/-! ## Saved-lists persistence (`load_saved_lists` / `save_lists`,
app.py lines 33–42)

`json.dump` and `json.load` are external collaborators; we model them at the
JSON-value level: `save_lists` serializes the dictionary as a JSON object of
arrays of strings, and `load_saved_lists` reads the stored JSON value back
under the schema the application assumes. -/

/-- JSON values, restricted to the constructors this application's file can
contain. -/
inductive Json where
  | str : String → Json
  | arr : List Json → Json
  | obj : List (String × Json) → Json

/-- Read a JSON value as a string. -/
def jsonAsStr : Json → Option String
  | .str s => some s
  | _ => none

/-- Read a list of JSON values as a list of strings. -/
def jsonStrList : List Json → Option (List String)
  | [] => some []
  | j :: js =>
      match jsonAsStr j, jsonStrList js with
      | some s, some ss => some (s :: ss)
      | _, _ => none

/-- Read a JSON value as an array of strings. -/
def jsonAsStrList : Json → Option (List String)
  | .arr xs => jsonStrList xs
  | _ => none

/-- Read the fields of a JSON object as saved-lists entries. -/
def jsonFields : List (String × Json) → Option SavedLists
  | [] => some []
  | (k, j) :: rest =>
      match jsonAsStrList j, jsonFields rest with
      | some v, some m => some ((k, v) :: m)
      | _, _ => none

/-- Read a JSON value as a saved-lists mapping (object of string arrays). -/
def jsonAsLists : Json → Option SavedLists
  | .obj fields => jsonFields fields
  | _ => none

/-- `save_lists(lists)` (app.py lines 40–42): `json.dump(lists, f, indent=2)`
writes the dictionary, in insertion order, as a JSON object of arrays. -/
def save_lists (m : SavedLists) : Json :=
  .obj (m.map (fun p => (p.1, .arr (p.2.map .str))))

/-- `load_saved_lists()` (app.py lines 33–37): `{}` when the file does not
exist; otherwise `json.load` of the stored value, decoded under the
object-of-string-arrays schema the rest of the code assumes. -/
def load_saved_lists (file : Option Json) : Option SavedLists :=
  match file with
  | none => some []
  | some j => jsonAsLists j

/-! ## Sample data for witness instances -/

/-- A small contact table used to instantiate the filtering theorems. -/
def sampleDf : List Contact :=
  [⟨"Alice +crew +ops", false, []⟩, ⟨"Bob +ops", false, []⟩,
   ⟨"Carol", false, []⟩]

/-- A small saved-lists mapping used to instantiate the list-editor
theorems. -/
def sampleLists : SavedLists :=
  [("Team1", ["Alice"]), ("Team2", ["Bob", "Carol"])]

/-- A small contact table used to instantiate the append theorem. -/
def sampleTable : Table :=
  { cols := ["phone"], rows := [⟨"Alice +crew", false, ["123"]⟩] }

end ContactApp

namespace ContactApp

/-! ## Order lemmas for the string sort -/

theorem charListLe_total (a b : List Char) :
    charListLe a b = true ∨ charListLe b a = true := by
  induction a generalizing b with
  | nil => left; rfl
  | cons x xs ih =>
    cases b with
    | nil => right; rfl
    | cons y ys =>
      by_cases h1 : x < y
      · left; simp [charListLe, h1]
      · by_cases h2 : y < x
        · right; simp [charListLe, h2]
        · rcases ih ys with h | h
          · left; simp [charListLe, h1, h2, h]
          · right; simp [charListLe, h1, h2, h]

theorem charListLe_trans {a b c : List Char} (hab : charListLe a b = true)
    (hbc : charListLe b c = true) : charListLe a c = true := by
  induction a generalizing b c with
  | nil => rfl
  | cons x xs ih =>
    cases b with
    | nil => simp [charListLe] at hab
    | cons y ys =>
      cases c with
      | nil => simp [charListLe] at hbc
      | cons z zs =>
        rw [charListLe] at hab hbc ⊢
        by_cases hxy : x < y
        · by_cases hyz : y < z
          · simp [lt_trans hxy hyz]
          · by_cases hzy : z < y
            · simp [hyz, hzy] at hbc
            · have hyzeq : y = z := le_antisymm (le_of_not_lt hzy) (le_of_not_lt hyz)
              subst hyzeq
              simp [hxy]
        · by_cases hyx : y < x
          · simp [hxy, hyx] at hab
          · have hxyeq : x = y := le_antisymm (le_of_not_lt hyx) (le_of_not_lt hxy)
            subst hxyeq
            simp only [hxy, if_neg, lt_irrefl, if_false] at hab
            by_cases hyz : x < z
            · simp [hyz]
            · by_cases hzy : z < x
              · simp [hyz, hzy] at hbc
              · have hxzeq : x = z := le_antisymm (le_of_not_lt hzy) (le_of_not_lt hyz)
                subst hxzeq
                simp only [lt_irrefl, if_false] at hbc ⊢
                exact ih hab hbc

theorem strLe_total (a b : String) : strLe a b = true ∨ strLe b a = true :=
  charListLe_total a.data b.data

theorem strLe_trans {a b c : String} (hab : strLe a b = true)
    (hbc : strLe b c = true) : strLe a c = true :=
  charListLe_trans hab hbc

theorem mem_insertStr {a s : String} {l : List String} :
    a ∈ insertStr s l ↔ a = s ∨ a ∈ l := by
  induction l with
  | nil => simp [insertStr]
  | cons x xs ih =>
    by_cases h : strLe s x = true
    · simp [insertStr, h]
    · simp [insertStr, h, ih]
      tauto

theorem insertStr_perm (s : String) (l : List String) :
    List.Perm (insertStr s l) (s :: l) := by
  induction l with
  | nil => exact List.Perm.refl _
  | cons x xs ih =>
    by_cases h : strLe s x = true
    · rw [insertStr, if_pos h]
    · rw [insertStr, if_neg h]
      exact List.Perm.trans (ih.cons x) (List.Perm.swap s x xs)

theorem sortStrs_perm (l : List String) : List.Perm (sortStrs l) l := by
  induction l with
  | nil => exact List.Perm.refl _
  | cons x xs ih =>
    exact List.Perm.trans (insertStr_perm x (sortStrs xs)) (ih.cons x)

theorem mem_sortStrs {a : String} {l : List String} :
    a ∈ sortStrs l ↔ a ∈ l :=
  (sortStrs_perm l).mem_iff

theorem pairwise_insertStr {s : String} {l : List String}
    (hl : l.Pairwise (fun a b => strLe a b = true)) :
    (insertStr s l).Pairwise (fun a b => strLe a b = true) := by
  induction l with
  | nil => simp [insertStr]
  | cons x xs ih =>
    rcases List.pairwise_cons.mp hl with ⟨hx, hxs⟩
    by_cases h : strLe s x = true
    · rw [insertStr, if_pos h]
      refine List.pairwise_cons.mpr ⟨?_, hl⟩
      intro y hy
      rcases List.mem_cons.mp hy with rfl | hy
      · exact h
      · exact strLe_trans h (hx y hy)
    · rw [insertStr, if_neg h]
      refine List.pairwise_cons.mpr ⟨?_, ih hxs⟩
      intro y hy
      rcases mem_insertStr.mp hy with rfl | hy
      · rcases strLe_total y x with h' | h'
        · exact absurd h' h
        · exact h'
      · exact hx y hy

theorem pairwise_sortStrs (l : List String) :
    (sortStrs l).Pairwise (fun a b => strLe a b = true) := by
  induction l with
  | nil => exact List.Pairwise.nil
  | cons x xs ih => exact pairwise_insertStr ih

theorem nodup_sortStrs {l : List String} (hl : l.Nodup) :
    (sortStrs l).Nodup :=
  ((sortStrs_perm l).nodup_iff).mpr hl

/-! ## Membership lemmas for tag extraction -/

theorem mem_extract_tags {t : String} {df : List Contact} :
    t ∈ extract_tags df ↔ ∃ c ∈ df, t ∈ tokensOfName c.display_name := by
  unfold extract_tags
  rw [mem_sortStrs, List.mem_dedup, List.mem_flatMap]
  constructor
  · rintro ⟨name, hname, ht⟩
    rcases List.mem_map.mp hname with ⟨c, hc, rfl⟩
    exact ⟨c, hc, ht⟩
  · rintro ⟨c, hc, ht⟩
    exact ⟨c.display_name, List.mem_map.mpr ⟨c, hc, rfl⟩, ht⟩

theorem matchFoundTokens_eq_tokensOfName (name : String) :
    matchFoundTokens name = tokensOfName name := rfl

theorem mem_extract_tags_singleton {t : String} {c : Contact} :
    t ∈ extract_tags [c] ↔ t ∈ matchFoundTokens c.display_name := by
  rw [mem_extract_tags, matchFoundTokens_eq_tokensOfName]
  simp

/-! ## Dictionary lemmas -/

theorem dictLookup_dictInsert_self (m : SavedLists) (k : String)
    (v : List String) : dictLookup (dictInsert m k v) k = some v := by
  induction m with
  | nil => simp [dictInsert, dictLookup]
  | cons p rest ih =>
    by_cases h : p.1 = k
    · simp [dictInsert, dictLookup, h]
    · simp [dictInsert, dictLookup, h, ih]

theorem dictLookup_dictInsert_ne (m : SavedLists) (k k' : String)
    (v : List String) (hk : k' ≠ k) :
    dictLookup (dictInsert m k v) k' = dictLookup m k' := by
  induction m with
  | nil => simp [dictInsert, dictLookup, Ne.symm hk]
  | cons p rest ih =>
    by_cases h : p.1 = k
    · subst h
      simp [dictInsert, dictLookup, Ne.symm hk]
    · by_cases h' : p.1 = k'
      · simp [dictInsert, dictLookup, h, h', hk]
      · simp [dictInsert, dictLookup, h, h', ih]

theorem dictLookup_dictRemove_ne (m : SavedLists) (k k' : String)
    (hk : k' ≠ k) :
    dictLookup (dictRemove m k) k' = dictLookup m k' := by
  induction m with
  | nil => simp [dictRemove, dictLookup]
  | cons p rest ih =>
    by_cases h : p.1 = k
    · subst h
      simp [dictRemove, dictLookup, Ne.symm hk]
    · by_cases h' : p.1 = k'
      · simp [dictRemove, dictLookup, h, h', hk]
      · simp [dictRemove, dictLookup, h, h', ih]

theorem dictLookup_eq_none_of_not_mem (m : SavedLists) (k : String)
    (hk : k ∉ m.map Prod.fst) : dictLookup m k = none := by
  induction m with
  | nil => rfl
  | cons p rest ih =>
    simp only [List.map_cons, List.mem_cons] at hk
    push_neg at hk
    simp [dictLookup, Ne.symm hk.1, ih hk.2]

theorem dictLookup_dictRemove_self (m : SavedLists) (k : String)
    (hm : keysNodup m) : dictLookup (dictRemove m k) k = none := by
  induction m with
  | nil => rfl
  | cons p rest ih =>
    rcases List.pairwise_cons.mp hm with ⟨hp, hrest⟩
    by_cases h : p.1 = k
    · subst h
      rw [dictRemove, if_pos rfl]
      apply dictLookup_eq_none_of_not_mem
      intro hmem
      rcases List.mem_map.mp hmem with ⟨q, hq, hq1⟩
      exact hp q.1 (List.mem_map.mpr ⟨q, hq, rfl⟩) hq1.symm
    · rw [dictRemove, if_neg h, dictLookup, if_neg h]
      exact ih hrest

/-! ## JSON round-trip lemmas -/

theorem jsonStrList_map_str (vs : List String) :
    jsonStrList (vs.map Json.str) = some vs := by
  induction vs with
  | nil => rfl
  | cons v vs ih => simp [jsonStrList, jsonAsStr, ih]

theorem jsonFields_save (m : SavedLists) :
    jsonFields (m.map (fun p => (p.1, Json.arr (p.2.map Json.str)))) = some m := by
  induction m with
  | nil => rfl
  | cons p rest ih =>
    simp [jsonFields, jsonAsStrList, jsonStrList_map_str, ih]

/-! ## Pointwise correspondence between `match_tags` and the extracted
per-name tag set -/

theorem match_tags_AND_eq (sel : List String) (c : Contact) :
    match_tags "AND" sel c.display_name
      = decide (∀ t ∈ sel, t ∈ extract_tags [c]) := by
  have hmode : (("AND" : String) == "AND") = true := by decide
  have h : (sel.all (fun tag => (matchFoundTokens c.display_name).contains tag)
      = true) ↔ (∀ t ∈ sel, t ∈ extract_tags [c]) := by
    simp [List.all_eq_true, mem_extract_tags_singleton, List.contains,
      List.elem_iff]
  by_cases hp : ∀ t ∈ sel, t ∈ extract_tags [c]
  · simp only [match_tags, hmode, if_true, decide_eq_true hp, h.mpr hp]
  · simp only [match_tags, hmode, if_true, decide_eq_false hp]
    exact Bool.eq_false_iff.mpr (fun hc => hp (h.mp hc))

theorem match_tags_OR_eq (sel : List String) (c : Contact) :
    match_tags "OR" sel c.display_name
      = decide (∃ t ∈ sel, t ∈ extract_tags [c]) := by
  have hmode : (("OR" : String) == "AND") = false := by decide
  have h : (sel.any (fun tag => (matchFoundTokens c.display_name).contains tag)
      = true) ↔ (∃ t ∈ sel, t ∈ extract_tags [c]) := by
    simp [List.any_eq_true, mem_extract_tags_singleton, List.contains,
      List.elem_iff]
  by_cases hp : ∃ t ∈ sel, t ∈ extract_tags [c]
  · simp only [match_tags, hmode, if_false, Bool.false_eq_true,
      decide_eq_true hp, h.mpr hp]
  · simp only [match_tags, hmode, if_false, Bool.false_eq_true,
      decide_eq_false hp]
    exact Bool.eq_false_iff.mpr (fun hc => hp (h.mp hc))

/-! ## Claim theorems -/

/-- C1 (counterexample): the token filter of `extract_tags` is a *prefix*
digit test and kept tags retain their leading `+`.  The name
`"+Foo123 +456abc"` holds the token `+456abc`, which is not entirely `+`
followed by digits, yet the result omits it; and a table containing
`+Foo123` and `+456` yields `["+foo123"]`, not `["foo123"]`. -/
theorem C1_counterexample :
    extract_tags [⟨"+Foo123 +456abc", false, []⟩] = ["+foo123"] ∧
    extract_tags [⟨"+Foo123 +456", false, []⟩] ≠ ["foo123"] := by decide

/-- C1 (amended): `extract_tags` returns the sorted-ascending,
duplicate-free list of the lowercased `+word` tokens of the display names,
each kept with its leading `+`, discarding exactly those tokens whose first
character after the `+` is a digit; in particular a table whose single
display name holds exactly the tokens `+Foo123` and `+456` yields
`["+foo123"]`. -/
theorem C1_extract_tags_amended :
    (∀ df : List Contact,
      (extract_tags df).Pairwise (fun a b => strLe a b = true) ∧
      (extract_tags df).Nodup ∧
      (∀ t, t ∈ extract_tags df ↔
        ∃ c ∈ df, ∃ tok ∈ findPlusTokens c.display_name,
          matchPlusDigits tok = false ∧ t = strLower tok)) ∧
    extract_tags [⟨"+Foo123 +456", false, []⟩] = ["+foo123"] := by
  constructor
  · intro df
    refine ⟨pairwise_sortStrs _, nodup_sortStrs (List.nodup_dedup _), ?_⟩
    intro t
    rw [mem_extract_tags]
    constructor
    · rintro ⟨c, hc, ht⟩
      rcases List.mem_map.mp ht with ⟨tok, htok, rfl⟩
      rcases List.mem_filter.mp htok with ⟨htok1, htok2⟩
      exact ⟨c, hc, tok, htok1, by simpa using htok2, rfl⟩
    · rintro ⟨c, hc, tok, htok, hnum, rfl⟩
      exact ⟨c, hc, List.mem_map.mpr
        ⟨tok, List.mem_filter.mpr ⟨htok, by simp [hnum]⟩, rfl⟩⟩
  · decide

/-- C2: the token list `found` computed per name inside `match_tags` and the
tag list `extract_tags` computes for the singleton table holding only that
contact contain exactly the same tokens. -/
theorem C2_per_name_tokens_agree (c : Contact) (t : String) :
    t ∈ matchFoundTokens c.display_name ↔ t ∈ extract_tags [c] :=
  mem_extract_tags_singleton.symm

/-- C3: with an empty selection, `tag_filter` returns the input table
unchanged, for every combination mode (in particular `"AND"` and `"OR"`). -/
theorem C3_empty_selection_noop (df : List Contact) (mode : String) :
    tag_filter df [] mode = df := rfl

/-- C4: with a non-empty selection, `"AND"`-mode filtering keeps exactly the
contacts whose extracted per-name tag set contains every selected tag,
`"OR"`-mode filtering keeps exactly those whose tag set contains at least
one selected tag, and both results are subsequences of the input (relative
order preserved). -/
theorem C4_nonempty_filter (df : List Contact) (sel : List String)
    (hsel : sel ≠ []) :
    tag_filter df sel "AND" =
      df.filter (fun c => decide (∀ t ∈ sel, t ∈ extract_tags [c])) ∧
    tag_filter df sel "OR" =
      df.filter (fun c => decide (∃ t ∈ sel, t ∈ extract_tags [c])) ∧
    List.Sublist (tag_filter df sel "AND") df ∧
    List.Sublist (tag_filter df sel "OR") df := by
  have hne : sel.isEmpty = false := List.isEmpty_eq_false.mpr hsel
  have hAND : tag_filter df sel "AND"
      = df.filter (fun c => match_tags "AND" sel c.display_name) := by
    simp [tag_filter, hne]
  have hOR : tag_filter df sel "OR"
      = df.filter (fun c => match_tags "OR" sel c.display_name) := by
    simp [tag_filter, hne]
  refine ⟨?_, ?_, ?_, ?_⟩
  · rw [hAND]
    exact List.filter_congr (fun c _ => match_tags_AND_eq sel c)
  · rw [hOR]
    exact List.filter_congr (fun c _ => match_tags_OR_eq sel c)
  · rw [hAND]
    exact List.filter_sublist df
  · rw [hOR]
    exact List.filter_sublist df

/-- C4 witness: the characterization instantiated on a concrete table and a
concrete non-empty selection. -/
theorem C4_witness :
    (["+crew"] : List String) ≠ [] ∧
    (tag_filter sampleDf ["+crew"] "AND" =
        sampleDf.filter
          (fun c => decide (∀ t ∈ (["+crew"] : List String),
            t ∈ extract_tags [c])) ∧
      tag_filter sampleDf ["+crew"] "OR" =
        sampleDf.filter
          (fun c => decide (∃ t ∈ (["+crew"] : List String),
            t ∈ extract_tags [c])) ∧
      List.Sublist (tag_filter sampleDf ["+crew"] "AND") sampleDf ∧
      List.Sublist (tag_filter sampleDf ["+crew"] "OR") sampleDf) :=
  ⟨by decide, C4_nonempty_filter sampleDf ["+crew"] (by decide)⟩

/-- C5: the "Save Selected Contacts" action is a no-op (mapping unchanged,
nothing persisted) when the list name or the selection is empty; otherwise
it assigns `mapping[name] = members` — silently overwriting an existing
entry — and persists. -/
theorem C5_create_or_overwrite (m : SavedLists) (name : String)
    (members : List String) :
    (name = "" ∨ members = [] →
      create_or_overwrite m name members = (m, false)) ∧
    (name ≠ "" → members ≠ [] →
      create_or_overwrite m name members = (dictInsert m name members, true) ∧
      dictLookup (create_or_overwrite m name members).1 name = some members) := by
  constructor
  · intro h
    have hcond : ¬(name ≠ "" ∧ members ≠ []) := by tauto
    simp only [create_or_overwrite]
    rw [if_neg hcond]
  · intro h1 h2
    have heq : create_or_overwrite m name members
        = (dictInsert m name members, true) := by
      simp only [create_or_overwrite]
      rw [if_pos ⟨h1, h2⟩]
    refine ⟨heq, ?_⟩
    rw [heq]
    exact dictLookup_dictInsert_self m name members

/-- C5 witness: both branches instantiated on a concrete mapping. -/
theorem C5_witness :
    ((("" : String) = "" ∨ (["Alice"] : List String) = []) ∧
      create_or_overwrite sampleLists "" ["Alice"] = (sampleLists, false)) ∧
    ("Team3" : String) ≠ "" ∧ (["Alice", "Bob"] : List String) ≠ [] ∧
    (create_or_overwrite sampleLists "Team3" ["Alice", "Bob"]
        = (dictInsert sampleLists "Team3" ["Alice", "Bob"], true) ∧
      dictLookup (create_or_overwrite sampleLists "Team3" ["Alice", "Bob"]).1
        "Team3" = some ["Alice", "Bob"]) :=
  ⟨⟨Or.inl rfl,
    (C5_create_or_overwrite sampleLists "" ["Alice"]).1 (Or.inl rfl)⟩,
   by decide, by decide,
   (C5_create_or_overwrite sampleLists "Team3" ["Alice", "Bob"]).2
     (by decide) (by decide)⟩

/-- C6: deleting a present list name removes exactly that key and persists;
deleting an absent name raises `KeyError` (surfaced to the operator),
persists nothing, and leaves the mapping unchanged. -/
theorem C6_delete_list (m : SavedLists) (name : String) (hm : keysNodup m) :
    ((dictLookup m name).isSome = true →
      delete_list m name = (dictRemove m name, true, none) ∧
      dictLookup (dictRemove m name) name = none ∧
      (∀ k, k ≠ name → dictLookup (dictRemove m name) k = dictLookup m k)) ∧
    (dictLookup m name = none →
      delete_list m name = (m, false, some "KeyError")) := by
  constructor
  · intro h
    refine ⟨?_, dictLookup_dictRemove_self m name hm,
      fun k hk => dictLookup_dictRemove_ne m name k hk⟩
    simp only [delete_list]
    rw [if_pos h]
  · intro h
    simp only [delete_list]
    rw [if_neg (by simp [h])]

/-- C6 witness: deletion of the present name `"Team1"` and of the absent
name `"Nope"` on a concrete mapping. -/
theorem C6_witness :
    keysNodup sampleLists ∧
    (dictLookup sampleLists "Team1").isSome = true ∧
    (delete_list sampleLists "Team1"
        = (dictRemove sampleLists "Team1", true, none) ∧
      dictLookup (dictRemove sampleLists "Team1") "Team1" = none ∧
      (∀ k, k ≠ "Team1" →
        dictLookup (dictRemove sampleLists "Team1") k
          = dictLookup sampleLists k)) ∧
    dictLookup sampleLists "Nope" = none ∧
    delete_list sampleLists "Nope" = (sampleLists, false, some "KeyError") :=
  ⟨by decide, by decide,
   (C6_delete_list sampleLists "Team1" (by decide)).1 (by decide),
   by decide,
   (C6_delete_list sampleLists "Nope" (by decide)).2 (by decide)⟩

/-- C7: appending with an empty or whitespace-only raw name returns the
table unchanged and writes nothing; otherwise exactly one record is added
at the end, with `display_name` equal to the raw name, `checkbox` false and
every other attribute the empty string, the pre-existing rows unchanged, and
the CSV is written. -/
theorem C7_add_contact (tbl : Table) (raw : String) :
    (strStrip raw = "" → add_contact tbl raw = (tbl, false)) ∧
    (strStrip raw ≠ "" →
      (add_contact tbl raw).2 = true ∧
      (add_contact tbl raw).1.cols = tbl.cols ∧
      (add_contact tbl raw).1.rows.length = tbl.rows.length + 1 ∧
      (add_contact tbl raw).1.rows.take tbl.rows.length = tbl.rows ∧
      (add_contact tbl raw).1.rows.getLast? =
        some { display_name := raw, checkbox := false,
               attrs := List.replicate tbl.cols.length "" }) := by
  constructor
  · intro h
    simp only [add_contact]
    rw [if_neg (by simp [h])]
  · intro h
    have heq : add_contact tbl raw =
        ({ cols := tbl.cols,
           rows := tbl.rows ++
             [{ display_name := raw, checkbox := false,
                attrs := tbl.cols.map (fun _ => "") }] }, true) := by
      simp only [add_contact]
      rw [if_pos h]
    rw [heq]
    refine ⟨rfl, rfl, ?_, ?_, ?_⟩
    · simp
    · exact List.take_left tbl.rows _
    · rw [List.getLast?_concat]
      simp [List.map_const']

/-- C7 witness: the whitespace-only no-op and a real append on a concrete
table. -/
theorem C7_witness :
    strStrip "  " = "" ∧ add_contact sampleTable "  " = (sampleTable, false) ∧
    strStrip "Zed +new" ≠ "" ∧
    ((add_contact sampleTable "Zed +new").2 = true ∧
      (add_contact sampleTable "Zed +new").1.cols = sampleTable.cols ∧
      (add_contact sampleTable "Zed +new").1.rows.length
        = sampleTable.rows.length + 1 ∧
      (add_contact sampleTable "Zed +new").1.rows.take sampleTable.rows.length
        = sampleTable.rows ∧
      (add_contact sampleTable "Zed +new").1.rows.getLast? =
        some { display_name := "Zed +new", checkbox := false,
               attrs := List.replicate sampleTable.cols.length "" }) :=
  ⟨by decide, (C7_add_contact sampleTable "  ").1 (by decide), by decide,
   (C7_add_contact sampleTable "Zed +new").2 (by decide)⟩

/-- C8: for every matrix and selected charterer column, the `yes` sequence
holds exactly the operators of rows whose string-coerced, uppercased cell is
`"YES"`, the `no` sequence exactly those whose cell is `"NO"`; rows with any
other cell value feed neither sequence, and rows with a missing operator are
dropped. -/
theorem C8_partition_membership (rows : List MatrixRow) (ch op : String) :
    (op ∈ (partitionOperators rows ch).1 ↔
      ∃ r ∈ rows, r.operator = some op ∧ strUpper (cellFor r ch) = "YES") ∧
    (op ∈ (partitionOperators rows ch).2 ↔
      ∃ r ∈ rows, r.operator = some op ∧ strUpper (cellFor r ch) = "NO") := by
  simp only [partitionOperators]
  constructor
  · constructor
    · intro hop
      rcases List.mem_filterMap.mp hop with ⟨r, hr, hrop⟩
      rcases List.mem_filter.mp hr with ⟨hrmem, hp⟩
      exact ⟨r, hrmem, hrop, by simpa using hp⟩
    · rintro ⟨r, hrmem, hrop, hcell⟩
      exact List.mem_filterMap.mpr
        ⟨r, List.mem_filter.mpr ⟨hrmem, by simp [hcell]⟩, hrop⟩
  · constructor
    · intro hop
      rcases List.mem_filterMap.mp hop with ⟨r, hr, hrop⟩
      rcases List.mem_filter.mp hr with ⟨hrmem, hp⟩
      exact ⟨r, hrmem, hrop, by simpa using hp⟩
    · rintro ⟨r, hrmem, hrop, hcell⟩
      exact List.mem_filterMap.mpr
        ⟨r, List.mem_filter.mpr ⟨hrmem, by simp [hcell]⟩, hrop⟩

/-- C9: loading a stored saved-lists mapping returns it exactly, so saving
the loaded result reproduces the stored JSON value byte for byte — no key
is lost and no member sequence is reordered or altered; a missing file
loads as the empty mapping. -/
theorem C9_roundtrip (m : SavedLists) :
    load_saved_lists (some (save_lists m)) = some m ∧
    (load_saved_lists (some (save_lists m))).map save_lists
      = some (save_lists m) ∧
    load_saved_lists none = some ([] : SavedLists) := by
  have h : load_saved_lists (some (save_lists m)) = some m := by
    simp only [load_saved_lists, save_lists, jsonAsLists]
    exact jsonFields_save m
  exact ⟨h, by rw [h]; rfl, rfl⟩

/-- C10: every list-editor operation targeting `name` — create-or-overwrite,
update, delete — leaves the value of every other key unchanged. -/
theorem C10_frame (m : SavedLists) (name k : String) (members : List String)
    (hk : k ≠ name) :
    dictLookup (create_or_overwrite m name members).1 k = dictLookup m k ∧
    dictLookup (update_list m name members).1 k = dictLookup m k ∧
    dictLookup (delete_list m name).1 k = dictLookup m k := by
  refine ⟨?_, ?_, ?_⟩
  · by_cases h : name ≠ "" ∧ members ≠ []
    · simp only [create_or_overwrite]
      rw [if_pos h]
      exact dictLookup_dictInsert_ne m name k members hk
    · simp only [create_or_overwrite]
      rw [if_neg h]
  · exact dictLookup_dictInsert_ne m name k members hk
  · by_cases h : (dictLookup m name).isSome = true
    · simp only [delete_list]
      rw [if_pos h]
      exact dictLookup_dictRemove_ne m name k hk
    · simp only [delete_list]
      rw [if_neg h]

/-- C10 witness: the frame property instantiated on a concrete mapping with
`name = "Team1"` and the other key `"Team2"`. -/
theorem C10_witness :
    ("Team2" : String) ≠ "Team1" ∧
    (dictLookup (create_or_overwrite sampleLists "Team1" ["Zed"]).1 "Team2"
        = dictLookup sampleLists "Team2" ∧
      dictLookup (update_list sampleLists "Team1" ["Zed"]).1 "Team2"
        = dictLookup sampleLists "Team2" ∧
      dictLookup (delete_list sampleLists "Team1").1 "Team2"
        = dictLookup sampleLists "Team2") :=
  ⟨by decide, C10_frame sampleLists "Team1" "Team2" ["Zed"] (by decide)⟩

end ContactApp
